import Mathlib

/-!
Shallow embedding of the PL/0 runtime support library (`runtime.c`).

Output written to standard output is modelled as a `List Char` of bytes;
each print routine returns the bytes it writes.  The host `printf`
conversions are embedded as follows: `%d`/`%hd`/`%hhd` produce the signed
base-10 decimal text of the argument (one leading `-` for negative
values), `%hu`/`%hhu` produce the unsigned base-10 decimal text, and `%s`
produces the bytes at the argument address up to the first null byte.
The host `scanf("%d", _)` is embedded as a function from the pending
input stream to the parsed value and the remaining stream.

Narrow parameter types (`short`, `char`, `unsigned short`,
`unsigned char`) are modelled by the corresponding two's-complement /
modular reduction applied to the caller-supplied word at function entry,
which is what the C argument conversion for the declared parameter type
performs.
-/

namespace PL0Runtime

/-- The decimal digit characters produced by `printf`: `Nat.digitChar`
restricted to one base-10 digit. -/
def digitVal (c : Char) : Nat := c.toNat - 48

/-- Base-10 text of a natural number, most significant digit first,
with `0` rendered as `"0"` (the behaviour of `printf("%u", n)`). -/
def decimalNat (n : Nat) : List Char := Nat.toDigits 10 n

/-- Base-10 text of a signed integer, with a leading `-` for negative
values (the behaviour of `printf("%d", n)`). -/
def decimalInt (i : Int) : List Char :=
  if i < 0 then '-' :: decimalNat i.natAbs else decimalNat i.toNat

/-- C argument conversion to `short`: reduction into the 16-bit
two's-complement range [-32768, 32768). -/
def toShort (x : Int) : Int := (x + 32768) % 65536 - 32768

/-- C argument conversion to `char` as printed by `%hhd`: reduction into
the 8-bit two's-complement range [-128, 128). -/
def toByte (x : Int) : Int := (x + 128) % 256 - 128

/-- C argument conversion to `unsigned short`: reduction modulo 2^16. -/
def toUShort (x : Int) : Int := x % 65536

/-- C argument conversion to `unsigned char`: reduction modulo 2^8. -/
def toUByte (x : Int) : Int := x % 256

/-- `__pl0_print_integer(int param, int newline)`:
`if (newline) printf("%d\n", param); else printf("%d", param);`. -/
def __pl0_print_integer (param : Int) (newline : Int) : List Char :=
  if newline ≠ 0 then decimalInt param ++ ['\n'] else decimalInt param

/-- `__pl0_print_short(short param, int newline)`:
`if (newline) printf("%hd\n", param); else printf("%hd", param);`,
with the argument conversion to `short` applied at entry. -/
def __pl0_print_short (param : Int) (newline : Int) : List Char :=
  if newline ≠ 0 then decimalInt (toShort param) ++ ['\n']
  else decimalInt (toShort param)

/-- `__pl0_print_byte(char param, int newline)`:
`if (newline) printf("%hhd\n", param); else printf("%hhd", param);`,
with the conversion to a signed 8-bit value applied at entry. -/
def __pl0_print_byte (param : Int) (newline : Int) : List Char :=
  if newline ≠ 0 then decimalInt (toByte param) ++ ['\n']
  else decimalInt (toByte param)

/-- `__pl0_print_unsigned_short(unsigned short param, int newline)`:
`if (newline) printf("%hu\n", param); else printf("%hu", param);`,
with the argument conversion to `unsigned short` applied at entry. -/
def __pl0_print_unsigned_short (param : Int) (newline : Int) : List Char :=
  if newline ≠ 0 then decimalNat (toUShort param).toNat ++ ['\n']
  else decimalNat (toUShort param).toNat

/-- `__pl0_print_unsigned_byte(unsigned char param, int newline)`:
`if (newline) printf("%hhu\n", param); else printf("%hhu", param);`,
with the argument conversion to `unsigned char` applied at entry. -/
def __pl0_print_unsigned_byte (param : Int) (newline : Int) : List Char :=
  if newline ≠ 0 then decimalNat (toUByte param).toNat ++ ['\n']
  else decimalNat (toUByte param).toNat

/-- The null byte terminating a C string. -/
def nullByte : Char := Char.ofNat 0

/-- `__pl0_print_string(int param, int newline)`:
`if (newline) printf("%s\n", param); else printf("%s", param);`.
The `int` parameter is a pointer into byte memory `mem`; `%s` writes the
bytes from `mem param` up to (not including) the first null byte, whose
existence `h` is the precondition for `%s` to be defined. -/
def __pl0_print_string (mem : Nat → Char) (param : Nat)
    (h : ∃ n, mem (param + n) = nullByte) (newline : Int) : List Char :=
  let s := (List.range (Nat.find h)).map (fun i => mem (param + i))
  if newline ≠ 0 then s ++ ['\n'] else s

/-- `__pl0_print_boolean(int param, int newline)`: prints the literal
`"True"` when `param` is nonzero, `"False"` otherwise, each through
`printf("%s\n", _)` or `printf("%s", _)` according to `newline`. -/
def __pl0_print_boolean (param : Int) (newline : Int) : List Char :=
  if param ≠ 0 then
    if newline ≠ 0 then "True".data ++ ['\n'] else "True".data
  else
    if newline ≠ 0 then "False".data ++ ['\n'] else "False".data

/-- The C `isspace` predicate in the default locale: space, horizontal
tab, line feed, vertical tab, form feed, carriage return.  `scanf`'s
`%d` conversion skips exactly these characters. -/
def c_isspace (c : Char) : Bool :=
  c.toNat = 32 || c.toNat = 9 || c.toNat = 10 || c.toNat = 11 ||
    c.toNat = 12 || c.toNat = 13

/-- Leading-whitespace skipping performed by `scanf` before a `%d`
conversion. -/
def skipWs : List Char → List Char
  | [] => []
  | c :: cs => if c_isspace c then skipWs cs else c :: cs

/-- The optional sign accepted by a `%d` conversion: returns whether the
value is negated and the stream after the sign character. -/
def scanSign : List Char → Bool × List Char
  | [] => (false, [])
  | c :: cs =>
    if c = '-' then (true, cs)
    else if c = '+' then (false, cs)
    else (false, c :: cs)

/-- The decimal digit characters `'0'`–`'9'` matched by a `%d`
conversion. -/
def isDigitChar (c : Char) : Bool := 48 ≤ c.toNat && c.toNat ≤ 57

/-- The maximal run of decimal digits at the head of the stream, and the
remaining stream. -/
def takeDigits : List Char → List Char × List Char
  | [] => ([], [])
  | c :: cs =>
    if isDigitChar c then
      let p := takeDigits cs
      (c :: p.1, p.2)
    else ([], c :: cs)

/-- The numeric value of a run of decimal digits, accumulated left to
right as `scanf` does. -/
def digitsVal (ds : List Char) : Nat :=
  ds.foldl (fun a c => 10 * a + digitVal c) 0

/-- The host `scanf("%d", &tmp)` conversion: skip whitespace, read an
optional sign and a maximal nonempty digit run; on success return the
signed value and the remaining stream, on matching failure return
`none` leaving the offending characters unconsumed. -/
def scanfD (input : List Char) : Option Int × List Char :=
  let after := scanSign (skipWs input)
  let p := takeDigits after.2
  if p.1 = [] then (none, after.2)
  else if after.1 then (some (-(digitsVal p.1 : Int)), p.2)
  else (some (digitsVal p.1 : Int), p.2)

/-- `__pl0_read(void)`: `int tmp; scanf("%d", &tmp); return tmp;`.
`tmp` is the indeterminate initial value of the uninitialized local,
returned unchanged when the conversion fails; the result is the value
read and the remaining input stream. -/
def __pl0_read (input : List Char) (tmp : Int) : Int × List Char :=
  match scanfD input with
  | (some v, rest) => (v, rest)
  | (none, rest) => (tmp, rest)

/-- One invocation of a print routine, by the routine called and the
arguments supplied. -/
inductive PrintCall where
  | int32 (param : Int) (newline : Int)
  | int16 (param : Int) (newline : Int)
  | int8 (param : Int) (newline : Int)
  | uint16 (param : Int) (newline : Int)
  | uint8 (param : Int) (newline : Int)
  | str (mem : Nat → Char) (param : Nat)
      (h : ∃ n, mem (param + n) = nullByte) (newline : Int)
  | boolean (param : Int) (newline : Int)

/-- The bytes a print call writes to standard output. -/
def printOutput : PrintCall → List Char
  | .int32 p nl => __pl0_print_integer p nl
  | .int16 p nl => __pl0_print_short p nl
  | .int8 p nl => __pl0_print_byte p nl
  | .uint16 p nl => __pl0_print_unsigned_short p nl
  | .uint8 p nl => __pl0_print_unsigned_byte p nl
  | .str mem p h nl => __pl0_print_string mem p h nl
  | .boolean p nl => __pl0_print_boolean p nl

/-- The same print call with its line-terminate argument replaced. -/
def setNewline : PrintCall → Int → PrintCall
  | .int32 p _, nl => .int32 p nl
  | .int16 p _, nl => .int16 p nl
  | .int8 p _, nl => .int8 p nl
  | .uint16 p _, nl => .uint16 p nl
  | .uint8 p _, nl => .uint8 p nl
  | .str mem p h _, nl => .str mem p h nl
  | .boolean p _, nl => .boolean p nl

/-- The line-terminate argument of a print call. -/
def newlineArg : PrintCall → Int
  | .int32 _ nl => nl
  | .int16 _ nl => nl
  | .int8 _ nl => nl
  | .uint16 _ nl => nl
  | .uint8 _ nl => nl
  | .str _ _ _ nl => nl
  | .boolean _ nl => nl

/-- The bytes written to standard output by a sequence of print calls:
each call appends its own output directly after the previous one. -/
def runPrints : List PrintCall → List Char
  | [] => []
  | c :: cs => printOutput c ++ runPrints cs

/-- The externally visible state of the process: the pending standard
input stream and the bytes written so far to standard output. -/
structure RTState where
  input : List Char
  output : List Char

/-- Effect of one print call on the process state: its bytes are
appended to standard output; standard input is untouched. -/
def doPrint (c : PrintCall) (s : RTState) : RTState :=
  ⟨s.input, s.output ++ printOutput c⟩

/-- Effect of one `__pl0_read` call on the process state: it consumes
from standard input and returns the value read; standard output is
untouched.  `tmp` is the indeterminate initial value of the routine's
uninitialized local. -/
def doRead (tmp : Int) (s : RTState) : Int × RTState :=
  ((__pl0_read s.input tmp).1, ⟨(__pl0_read s.input tmp).2, s.output⟩)

/-- `main(int argc, char *argv[]) { __pl0_start(); }`: the process entry
point calls the compiled program's start routine (an external symbol,
modelled as an arbitrary transformation `start` of the process state)
and then returns, which terminates the process; falling off the end of
`main` returns exit status 0 (C99 5.1.2.2.3). -/
def main (argc : Int) (argv : List (List Char)) (start : RTState → RTState)
    (s : RTState) : Int × RTState :=
  (0, start s)

theorem toDigitsCore_acc (b : Nat) :
    ∀ (fuel n : Nat) (ds : List Char),
      Nat.toDigitsCore b fuel n ds = Nat.toDigitsCore b fuel n [] ++ ds := by
  intro fuel
  induction fuel with
  | zero => intro n ds; simp [Nat.toDigitsCore]
  | succ fuel ih =>
    intro n ds
    simp only [Nat.toDigitsCore]
    by_cases hdiv : n / b = 0
    · simp [hdiv]
    · simp only [hdiv, if_false]
      rw [ih (n / b) (Nat.digitChar (n % b) :: ds),
        ih (n / b) [Nat.digitChar (n % b)]]
      simp

theorem digitChar_toNat (d : Nat) (hd : d < 10) :
    (Nat.digitChar d).toNat = 48 + d := by
  interval_cases d <;> decide

theorem digitVal_digitChar (d : Nat) (hd : d < 10) :
    digitVal (Nat.digitChar d) = d := by
  simp [digitVal, digitChar_toNat d hd]

theorem isDigitChar_digitChar (d : Nat) (hd : d < 10) :
    isDigitChar (Nat.digitChar d) = true := by
  simp only [isDigitChar, digitChar_toNat d hd]
  simp; omega

theorem mem_toDigitsCore_isDigit :
    ∀ (fuel n : Nat) (c : Char), c ∈ Nat.toDigitsCore 10 fuel n [] →
      isDigitChar c = true := by
  intro fuel
  induction fuel with
  | zero => intro n c hc; simp [Nat.toDigitsCore] at hc
  | succ fuel ih =>
    intro n c hc
    simp only [Nat.toDigitsCore] at hc
    by_cases hdiv : n / 10 = 0
    · simp [hdiv] at hc
      rw [hc]
      exact isDigitChar_digitChar _ (Nat.mod_lt _ (by norm_num))
    · rw [if_neg hdiv, toDigitsCore_acc] at hc
      rcases List.mem_append.mp hc with h1 | h2
      · exact ih _ _ h1
      · simp at h2
        rw [h2]
        exact isDigitChar_digitChar _ (Nat.mod_lt _ (by norm_num))

theorem decimalNat_isDigit (n : Nat) (c : Char) (hc : c ∈ decimalNat n) :
    isDigitChar c = true := by
  apply mem_toDigitsCore_isDigit (n + 1) n c
  simpa [decimalNat, Nat.toDigits] using hc

theorem decimalNat_ne_nil (n : Nat) : decimalNat n ≠ [] := by
  simp only [decimalNat, Nat.toDigits, Nat.toDigitsCore]
  by_cases hdiv : n / 10 = 0
  · simp [hdiv]
  · rw [if_neg hdiv, toDigitsCore_acc]
    simp

theorem digitsVal_concat (l : List Char) (c : Char) :
    digitsVal (l ++ [c]) = 10 * digitsVal l + digitVal c := by
  simp [digitsVal, List.foldl_append]

theorem digitsVal_toDigitsCore :
    ∀ (fuel n : Nat), n < 10 ^ fuel →
      digitsVal (Nat.toDigitsCore 10 fuel n []) = n := by
  intro fuel
  induction fuel with
  | zero =>
    intro n hn
    interval_cases n
    simp [Nat.toDigitsCore, digitsVal]
  | succ fuel ih =>
    intro n hn
    simp only [Nat.toDigitsCore]
    by_cases hdiv : n / 10 = 0
    · simp [hdiv, digitsVal, digitVal, digitChar_toNat (n % 10) (by omega)]
      omega
    · have hbound : n / 10 < 10 ^ fuel := by
        refine (Nat.div_lt_iff_lt_mul (by norm_num)).mpr ?_
        calc n < 10 ^ (fuel + 1) := hn
        _ = 10 ^ fuel * 10 := pow_succ 10 fuel
      rw [if_neg hdiv, toDigitsCore_acc, digitsVal_concat, ih (n / 10) hbound,
        digitVal_digitChar (n % 10) (by omega)]
      omega

theorem digitsVal_decimalNat (n : Nat) : digitsVal (decimalNat n) = n := by
  have h2 : n < 10 ^ (n + 1) := by
    calc n < 2 ^ n := Nat.lt_two_pow n
    _ ≤ 10 ^ n := Nat.pow_le_pow_left (by norm_num) n
    _ ≤ 10 ^ (n + 1) := Nat.pow_le_pow_right (by norm_num) (Nat.le_succ n)
  simpa [decimalNat, Nat.toDigits] using digitsVal_toDigitsCore (n + 1) n h2

theorem newline_not_mem_decimalNat (n : Nat) : '\n' ∉ decimalNat n := by
  intro h
  have hd := decimalNat_isDigit n _ h
  revert hd
  decide

theorem skipWs_all_space (ws rest : List Char)
    (h : ∀ c ∈ ws, c_isspace c = true) :
    skipWs (ws ++ rest) = skipWs rest := by
  induction ws with
  | nil => rfl
  | cons c cs ih =>
    simp only [List.cons_append, skipWs, h c (by simp)]
    simp only [if_true]
    exact ih (fun x hx => h x (by simp [hx]))

theorem skipWs_not_space (c : Char) (cs : List Char)
    (h : c_isspace c = false) : skipWs (c :: cs) = c :: cs := by
  simp [skipWs, h]

theorem isDigitChar_not_space (c : Char) (h : isDigitChar c = true) :
    c_isspace c = false := by
  simp only [isDigitChar, Bool.and_eq_true, decide_eq_true_eq] at h
  simp only [c_isspace, Bool.or_eq_false_iff, decide_eq_false_iff_not]
  omega

theorem isDigitChar_not_sign (c : Char) (h : isDigitChar c = true) :
    c ≠ '-' ∧ c ≠ '+' := by
  constructor <;> rintro rfl <;> revert h <;> decide

theorem takeDigits_append (l rest : List Char)
    (hl : ∀ c ∈ l, isDigitChar c = true)
    (hr : ∀ c, rest.head? = some c → isDigitChar c = false) :
    takeDigits (l ++ rest) = (l, rest) := by
  induction l with
  | nil =>
    cases rest with
    | nil => rfl
    | cons c cs => simp [takeDigits, hr c rfl]
  | cons c cs ih =>
    simp only [List.cons_append, takeDigits, hl c (by simp), if_true]
    rw [List.append_eq, ih (fun x hx => hl x (by simp [hx]))]

theorem scanSign_dash (cs : List Char) : scanSign ('-' :: cs) = (true, cs) := by
  simp [scanSign]

theorem scanSign_no_sign (c : Char) (cs : List Char)
    (h1 : c ≠ '-') (h2 : c ≠ '+') :
    scanSign (c :: cs) = (false, c :: cs) := by
  simp [scanSign, h1, h2]

theorem skipWs_suffix (l : List Char) : List.IsSuffix (skipWs l) l := by
  induction l with
  | nil => exact List.suffix_rfl
  | cons c cs ih =>
    simp only [skipWs]
    cases hc : c_isspace c
    · simp
    · simp only [if_true]
      exact ih.trans (List.suffix_cons c cs)

theorem scanSign_suffix (l : List Char) : List.IsSuffix (scanSign l).2 l := by
  cases l with
  | nil => exact List.suffix_rfl
  | cons c cs =>
    simp only [scanSign]
    by_cases h1 : c = '-'
    · simp only [h1, if_true]
      exact List.suffix_cons _ _
    · by_cases h2 : c = '+'
      · simp [h1, h2]
      · simp [h1, h2]

theorem takeDigits_suffix (l : List Char) : List.IsSuffix (takeDigits l).2 l := by
  induction l with
  | nil => exact List.suffix_rfl
  | cons c cs ih =>
    simp only [takeDigits]
    cases hc : isDigitChar c
    · simp
    · simp only [if_true]
      exact ih.trans (List.suffix_cons c cs)

theorem scanfD_suffix (input : List Char) :
    List.IsSuffix (scanfD input).2 input := by
  have hbase : List.IsSuffix (scanSign (skipWs input)).2 input :=
    (scanSign_suffix _).trans (skipWs_suffix _)
  have hfull : List.IsSuffix (takeDigits (scanSign (skipWs input)).2).2 input :=
    (takeDigits_suffix _).trans hbase
  simp only [scanfD]
  by_cases h : (takeDigits (scanSign (skipWs input)).2).1 = []
  · simpa [h] using hbase
  · by_cases hneg : (scanSign (skipWs input)).1 = true
    · simpa [h, hneg] using hfull
    · simpa [h, hneg] using hfull

theorem read_suffix (input : List Char) (tmp : Int) :
    List.IsSuffix (__pl0_read input tmp).2 input := by
  have h := scanfD_suffix input
  simp only [__pl0_read]
  rcases hs : scanfD input with ⟨v, rest⟩
  rw [hs] at h
  cases v <;> simpa using h

theorem toShort_eq_self (v : Int) (h1 : -32768 ≤ v) (h2 : v < 32768) :
    toShort v = v := by
  simp only [toShort]
  omega

theorem toByte_eq_self (v : Int) (h1 : -128 ≤ v) (h2 : v < 128) :
    toByte v = v := by
  simp only [toByte]
  omega

theorem toUShort_eq_self (v : Int) (h1 : 0 ≤ v) (h2 : v < 65536) :
    toUShort v = v := by
  simp only [toUShort]
  omega

theorem toUByte_eq_self (v : Int) (h1 : 0 ≤ v) (h2 : v < 256) :
    toUByte v = v := by
  simp only [toUByte]
  omega

theorem toShort_idem (v : Int) : toShort (toShort v) = toShort v := by
  simp only [toShort]
  omega

theorem toByte_idem (v : Int) : toByte (toByte v) = toByte v := by
  simp only [toByte]
  omega

theorem toUShort_idem (v : Int) : toUShort (toUShort v) = toUShort v := by
  simp only [toUShort]
  omega

theorem toUByte_idem (v : Int) : toUByte (toUByte v) = toUByte v := by
  simp only [toUByte]
  omega

/-- C1: for every representable signed 32-bit integer `n`, calling
`__pl0_print_integer` with value `n` and a true (nonzero) line-terminate
flag writes exactly the base-10 decimal text of `n` — a leading `-`
followed by the digits of `|n|` when `n` is negative, the digits of `n`
otherwise — followed by exactly one line-break character and nothing
else; the digit word read back as a number is `|n|` again. -/
theorem C1_print_integer_newline (n newline : Int)
    (hlo : -(2 ^ 31) ≤ n) (hhi : n < 2 ^ 31) (hnl : newline ≠ 0) :
    __pl0_print_integer n newline = decimalInt n ++ ['\n'] ∧
    '\n' ∉ decimalInt n ∧
    (n < 0 → decimalInt n = '-' :: decimalNat n.natAbs) ∧
    (0 ≤ n → decimalInt n = decimalNat n.toNat) ∧
    digitsVal (decimalNat n.natAbs) = n.natAbs := by
  refine ⟨by simp [__pl0_print_integer, hnl], ?_, ?_, ?_, digitsVal_decimalNat _⟩
  · simp only [decimalInt]
    by_cases hneg : n < 0
    · simp only [hneg, if_true]
      intro hmem
      rcases List.mem_cons.mp hmem with h | h
      · exact absurd h (by decide)
      · exact newline_not_mem_decimalNat _ h
    · simp only [hneg, if_false]
      exact newline_not_mem_decimalNat _
  · intro hneg
    simp [decimalInt, hneg]
  · intro hpos
    have hnlt : ¬n < 0 := not_lt.mpr hpos
    simp [decimalInt, hnlt]

/-- C1 witness: printing `-7` with the flag set writes `"-7\n"`. -/
theorem C1_witness : __pl0_print_integer (-7) 1 = "-7\n".data := by
  have h := C1_print_integer_newline (-7) 1 (by decide) (by decide) (by decide)
  rw [h.1]
  decide

/-- C4: for every integer argument `p`, `__pl0_print_boolean` writes
exactly `"True"` when `p` is nonzero and exactly `"False"` when `p` is
zero, case-exact, with nothing beyond the optional line break selected
by the flag. -/
theorem C4_print_boolean (p nl : Int) :
    __pl0_print_boolean p nl =
      (if p ≠ 0 then "True".data else "False".data) ++
        (if nl ≠ 0 then ['\n'] else []) ∧
    '\n' ∉ (if p ≠ 0 then "True".data else "False".data) := by
  constructor
  · by_cases hp : p = 0 <;> by_cases hnl : nl = 0 <;>
      simp [__pl0_print_boolean, hp, hnl]
  · by_cases hp : p = 0 <;> simp [hp]

/-- C5: for every print routine and every value, the output produced
with a true (nonzero) line-terminate flag equals the output produced
with a false flag followed by exactly one line-break character. -/
theorem C5_newline_append (c : PrintCall) (nl : Int) (hnl : nl ≠ 0) :
    printOutput (setNewline c nl) = printOutput (setNewline c 0) ++ ['\n'] := by
  cases c with
  | int32 p _ => simp [printOutput, setNewline, __pl0_print_integer, hnl]
  | int16 p _ => simp [printOutput, setNewline, __pl0_print_short, hnl]
  | int8 p _ => simp [printOutput, setNewline, __pl0_print_byte, hnl]
  | uint16 p _ => simp [printOutput, setNewline, __pl0_print_unsigned_short, hnl]
  | uint8 p _ => simp [printOutput, setNewline, __pl0_print_unsigned_byte, hnl]
  | str mem a h _ => simp [printOutput, setNewline, __pl0_print_string, hnl]
  | boolean p _ =>
    by_cases hp : p = 0 <;> simp [printOutput, setNewline, __pl0_print_boolean, hp, hnl]

/-- C5 witness: the flag relation at the 32-bit print of `5`. -/
theorem C5_witness :
    printOutput (setNewline (PrintCall.int32 5 0) 1) =
      printOutput (setNewline (PrintCall.int32 5 0) 0) ++ ['\n'] :=
  C5_newline_append (PrintCall.int32 5 0) 1 (by decide)

/-- C2: whenever the input stream consists of optional leading
whitespace followed by the decimal token of a signed 32-bit integer `n`
(the token being maximal: the following character, if any, is not a
digit), `__pl0_read` returns exactly `n` and leaves exactly the stream
after the token, whatever indeterminate value the uninitialized local
held. -/
theorem C2_read_decimal_token (ws : List Char) (n : Int) (rest : List Char)
    (tmp : Int)
    (hws : ∀ c ∈ ws, c_isspace c = true)
    (hlo : -(2 ^ 31) ≤ n) (hhi : n < 2 ^ 31)
    (hrest : ∀ c, rest.head? = some c → isDigitChar c = false) :
    __pl0_read (ws ++ (decimalInt n ++ rest)) tmp = (n, rest) := by
  have hskip : skipWs (ws ++ (decimalInt n ++ rest)) = decimalInt n ++ rest := by
    rw [skipWs_all_space ws _ hws]
    by_cases hneg : n < 0
    · simp only [decimalInt, if_pos hneg, List.cons_append]
      exact skipWs_not_space _ _ (by decide)
    · rcases hl : decimalNat n.toNat with _ | ⟨c, cs⟩
      · exact absurd hl (decimalNat_ne_nil _)
      · have hcd : isDigitChar c = true :=
          decimalNat_isDigit n.toNat c (by rw [hl]; exact List.mem_cons_self c cs)
        simp only [decimalInt, if_neg hneg, hl, List.cons_append]
        exact skipWs_not_space _ _ (isDigitChar_not_space c hcd)
  have hscan : scanfD (ws ++ (decimalInt n ++ rest)) = (some n, rest) := by
    by_cases hneg : n < 0
    · have hD : ∀ c ∈ decimalNat n.natAbs, isDigitChar c = true :=
        fun c hcm => decimalNat_isDigit _ c hcm
      have htake : takeDigits (decimalNat n.natAbs ++ rest) =
          (decimalNat n.natAbs, rest) := takeDigits_append _ _ hD hrest
      have hne := decimalNat_ne_nil n.natAbs
      simp only [scanfD]
      rw [hskip]
      simp only [decimalInt, if_pos hneg, List.cons_append, scanSign_dash,
        htake, if_neg hne]
      have hcast : -((n.natAbs : Nat) : Int) = n := by omega
      simp [digitsVal_decimalNat, hcast]
      rw [abs_of_neg hneg, neg_neg]
    · rcases hl : decimalNat n.toNat with _ | ⟨c, cs⟩
      · exact absurd hl (decimalNat_ne_nil _)
      · have hcd : isDigitChar c = true :=
          decimalNat_isDigit n.toNat c (by rw [hl]; exact List.mem_cons_self c cs)
        have hD : ∀ x ∈ decimalNat n.toNat, isDigitChar x = true :=
          fun x hx => decimalNat_isDigit _ x hx
        have htake : takeDigits (decimalNat n.toNat ++ rest) =
            (decimalNat n.toNat, rest) := takeDigits_append _ _ hD hrest
        have hsign : scanSign (decimalNat n.toNat ++ rest) =
            (false, decimalNat n.toNat ++ rest) := by
          rcases isDigitChar_not_sign c hcd with ⟨hd1, hd2⟩
          rw [hl, List.cons_append, scanSign_no_sign c _ hd1 hd2]
        have hne := decimalNat_ne_nil n.toNat
        simp only [scanfD]
        rw [hskip]
        simp only [decimalInt, if_neg hneg, hsign, htake, if_neg hne]
        have hcast : ((n.toNat : Nat) : Int) = n := by omega
        simp [digitsVal_decimalNat, hcast]
  simp [__pl0_read, hscan]

/-- C2 witness: reading from a stream containing `"42\n"` returns `42`
and leaves the line break. -/
theorem C2_witness : __pl0_read ("42\n".data) 0 = (42, ['\n']) := by
  have h := C2_read_decimal_token [] 42 ['\n'] 0 (by simp) (by decide) (by decide)
    (by decide)
  simpa using h

/-- C3: in a sequence of print calls, a call whose line-terminate flag
is false followed immediately by another print call yields the
concatenation of their outputs with no separator in between; in
particular `__pl0_print_integer(-7, true)`, then
`__pl0_print_boolean(true, false)`, then `__pl0_print_integer(3, true)`
writes exactly the text `"-7\nTrue3\n"`. -/
theorem C3_concatenation :
    (∀ (c1 c2 : PrintCall) (cs : List PrintCall), newlineArg c1 = 0 →
        runPrints (c1 :: c2 :: cs) =
          printOutput c1 ++ (printOutput c2 ++ runPrints cs)) ∧
    runPrints [PrintCall.int32 (-7) 1, PrintCall.boolean 1 0,
        PrintCall.int32 3 1] =
      "-7\nTrue3\n".data := by
  constructor
  · intro c1 c2 cs hnl
    simp [runPrints]
  · decide

/-- C3 witness: the concatenation equation applied to the boolean print
with a false flag followed by the integer print of `3`. -/
theorem C3_witness :
    runPrints [PrintCall.boolean 1 0, PrintCall.int32 3 1] =
      printOutput (PrintCall.boolean 1 0) ++
        (printOutput (PrintCall.int32 3 1) ++ runPrints []) :=
  C3_concatenation.1 (PrintCall.boolean 1 0) (PrintCall.int32 3 1) []
    (by decide)

/-- C6: when the stream (after the whitespace skip and optional sign)
offers no digit — in particular on an exhausted stream — `__pl0_read`
returns normally without retrying: it yields whatever indeterminate
value the uninitialized local held, and signals nothing to the
caller. -/
theorem C6_read_failure (input : List Char) (tmp : Int)
    (hfail : (takeDigits (scanSign (skipWs input)).2).1 = []) :
    __pl0_read input tmp = (tmp, (scanSign (skipWs input)).2) := by
  simp [__pl0_read, scanfD, hfail]

/-- C6 witness: reading from the non-numeric stream `"abc"` returns the
indeterminate value `99` unchanged. -/
theorem C6_witness :
    __pl0_read ("abc".data) 99 = (99, (scanSign (skipWs ("abc".data))).2) :=
  C6_read_failure ("abc".data) 99 (by decide)

/-- C7: each narrower print routine formats its value strictly within
that width's range — the signed widths in natural signed decimal with a
leading minus for negative values, the unsigned widths in unsigned
decimal — and the output depends only on the value reduced to that
width, so nothing outside the width can leak in from adjacent calls. -/
theorem C7_narrow_widths (v nl : Int) :
    (-(2 ^ 15) ≤ v → v < 2 ^ 15 →
      __pl0_print_short v nl =
        (if nl ≠ 0 then decimalInt v ++ ['\n'] else decimalInt v)) ∧
    (-(2 ^ 7) ≤ v → v < 2 ^ 7 →
      __pl0_print_byte v nl =
        (if nl ≠ 0 then decimalInt v ++ ['\n'] else decimalInt v)) ∧
    (0 ≤ v → v < 2 ^ 16 →
      __pl0_print_unsigned_short v nl =
        (if nl ≠ 0 then decimalNat v.toNat ++ ['\n'] else decimalNat v.toNat)) ∧
    (0 ≤ v → v < 2 ^ 8 →
      __pl0_print_unsigned_byte v nl =
        (if nl ≠ 0 then decimalNat v.toNat ++ ['\n'] else decimalNat v.toNat)) ∧
    __pl0_print_short v nl = __pl0_print_short (toShort v) nl ∧
    __pl0_print_byte v nl = __pl0_print_byte (toByte v) nl ∧
    __pl0_print_unsigned_short v nl =
      __pl0_print_unsigned_short (toUShort v) nl ∧
    __pl0_print_unsigned_byte v nl =
      __pl0_print_unsigned_byte (toUByte v) nl := by
  refine ⟨?_, ?_, ?_, ?_, ?_, ?_, ?_, ?_⟩
  · intro h1 h2
    rw [__pl0_print_short, toShort_eq_self v (by omega) (by omega)]
  · intro h1 h2
    rw [__pl0_print_byte, toByte_eq_self v (by omega) (by omega)]
  · intro h1 h2
    rw [__pl0_print_unsigned_short, toUShort_eq_self v (by omega) (by omega)]
  · intro h1 h2
    rw [__pl0_print_unsigned_byte, toUByte_eq_self v (by omega) (by omega)]
  · simp only [__pl0_print_short, toShort_idem]
  · simp only [__pl0_print_byte, toByte_idem]
  · simp only [__pl0_print_unsigned_short, toUShort_idem]
  · simp only [__pl0_print_unsigned_byte, toUByte_idem]

/-- C7 witness: the signed 16-bit print of `-5` and the unsigned 8-bit
print of `250` format the values themselves. -/
theorem C7_witness :
    __pl0_print_short (-5) 1 =
      (if (1 : Int) ≠ 0 then decimalInt (-5) ++ ['\n'] else decimalInt (-5)) ∧
    __pl0_print_unsigned_byte 250 0 =
      (if (0 : Int) ≠ 0 then decimalNat (250 : Int).toNat ++ ['\n']
        else decimalNat (250 : Int).toNat) :=
  ⟨(C7_narrow_widths (-5) 1).1 (by decide) (by decide),
    (C7_narrow_widths 250 0).2.2.2.1 (by decide) (by decide)⟩

/-- C8: when the argument references a byte sequence whose first null
byte sits `len` bytes after the referenced address, `__pl0_print_string`
writes exactly those `len` bytes, verbatim, followed only by the
optional line break selected by the flag. -/
theorem C8_print_string (mem : Nat → Char) (addr len : Nat) (nl : Int)
    (hnull : mem (addr + len) = nullByte)
    (hbefore : ∀ i, i < len → mem (addr + i) ≠ nullByte) :
    __pl0_print_string mem addr ⟨len, hnull⟩ nl =
      (List.range len).map (fun i => mem (addr + i)) ++
        (if nl ≠ 0 then ['\n'] else []) := by
  have hfind : Nat.find (⟨len, hnull⟩ : ∃ k, mem (addr + k) = nullByte) = len := by
    rw [Nat.find_eq_iff]
    exact ⟨hnull, fun m hm => hbefore m hm⟩
  simp only [__pl0_print_string, hfind]
  by_cases hnl : nl = 0 <;> simp [hnl]

/-- C8 witness: printing a two-byte null-terminated sequence writes its
two bytes and the line break. -/
theorem C8_witness :
    __pl0_print_string (fun k => if k < 2 then 'h' else nullByte) 0
        ⟨2, by decide⟩ 1 =
      (List.range 2).map
          (fun i => (fun k => if k < 2 then 'h' else nullByte) (0 + i)) ++
        (if (1 : Int) ≠ 0 then ['\n'] else []) :=
  C8_print_string (fun k => if k < 2 then 'h' else nullByte) 0 2 1 (by decide)
    (by decide)

/-- C9: a print call only appends its own bytes to standard output and
leaves standard input untouched; a read call returns exactly the one
value `__pl0_read` computes, leaves standard output untouched, and only
consumes from the front of standard input (the remaining stream is a
suffix of the original); no call depends on anything but its arguments
and the streams. -/
theorem C9_frame :
    (∀ (c : PrintCall) (s : RTState),
        doPrint c s = ⟨s.input, s.output ++ printOutput c⟩) ∧
    (∀ (tmp : Int) (s : RTState),
        (doRead tmp s).2.output = s.output ∧
        (doRead tmp s).1 = (__pl0_read s.input tmp).1 ∧
        List.IsSuffix (doRead tmp s).2.input s.input) :=
  ⟨fun c s => rfl, fun tmp s => ⟨rfl, rfl, read_suffix s.input tmp⟩⟩

/-- C10: after the compiled program's start routine returns, the process
entry point performs no further input or output and exits with status 0,
for every argument vector, which it never reads. -/
theorem C10_main (argc1 argc2 : Int) (argv1 argv2 : List (List Char))
    (start : RTState → RTState) (s : RTState) :
    main argc1 argv1 start s = (0, start s) ∧
    main argc1 argv1 start s = main argc2 argv2 start s :=
  ⟨rfl, rfl⟩

end PL0Runtime
